import Mathlib

/-
Verification development for the gxserial-go serial media component.

The Go code is embedded shallowly:
  * bytes are Nat, byte slices are List Nat;
  * the blocking behaviour of synchronousMediaBase.Search is made explicit by
    passing the sequence of buffer contents the loop observes, one entry per
    pass (the head is the buffer at call time, each further entry is the
    buffer after one wake of the wait token before the deadline; running out
    of entries models the maxWait timer firing);
  * fallible steps of external collaborators (gxcommon encoding, the OS port)
    are passed in as Option values or Bool success flags.
-/

set_option linter.unusedVariables false

namespace Gxserial

/-- Embedding of bytes.Index as used by synchronousMediaBase.Search
(src/doc.go line 224): the least index at which pat occurs inside hay, or
none when pat does not occur; the empty pat occurs at index 0. -/
def listIndexOf (pat : List Nat) : List Nat → Option Nat
  | [] => if pat = [] then some 0 else none
  | a :: rest =>
      if (a :: rest).take pat.length = pat then some 0
      else (listIndexOf pat rest).map (· + 1)

/-- pat occurs in hay starting at index i. -/
def occurAt (pat hay : List Nat) (i : Nat) : Prop :=
  (hay.drop i).take pat.length = pat

instance (pat hay : List Nat) (i : Nat) : Decidable (occurAt pat hay i) :=
  inferInstanceAs (Decidable (_ = _))

/-- Cursor kept after a pass of Search that found no match: nextStart in
src/doc.go lines 234-237, len(buf) - (len(pat) - 1) clamped at zero (Nat
subtraction). -/
def nextStart (pat buf : List Nat) : Nat := buf.length - (pat.length - 1)

/-- Embedding of the non-empty-pat loop of synchronousMediaBase.Search
(src/doc.go lines 183-261). bufs lists the buffer contents seen by the
successive passes; the empty list models the maxWait timer firing.
maxWaitPos is true exactly when maxWait > 0. -/
def searchLoop (pat : List Nat) (minLen : Nat) (maxWaitPos : Bool)
    (lastStart : Nat) : List (List Nat) → Int
  | [] => -1
  | buf :: rest =>
      if buf.length < minLen then
        if maxWaitPos then searchLoop pat minLen maxWaitPos lastStart rest
        else -1
      else
        match listIndexOf pat (buf.drop (min lastStart buf.length)) with
        | some i => ((min lastStart buf.length + i + pat.length : Nat) : Int)
        | none =>
            if maxWaitPos then
              searchLoop pat minLen maxWaitPos (nextStart pat buf) rest
            else -1

/-- Embedding of the empty-pat loop of synchronousMediaBase.Search
(src/doc.go lines 151-181). -/
def searchEmptyLoop (minLen : Nat) (maxWaitPos : Bool) : List (List Nat) → Int
  | [] => -1
  | buf :: rest =>
      if minLen ≤ buf.length then 0
      else if maxWaitPos then searchEmptyLoop minLen maxWaitPos rest
      else -1

/-- minLen clamp at the top of Search (src/doc.go lines 139-141). -/
def minClamp (minLen : Int) : Nat := if minLen < 0 then 0 else minLen.toNat

/-- Embedding of synchronousMediaBase.Search (src/doc.go lines 138-262). -/
def Search (pat : List Nat) (minLen : Int) (maxWaitPos : Bool)
    (bufs : List (List Nat)) : Int :=
  if pat = [] then searchEmptyLoop (minClamp minLen) maxWaitPos bufs
  else searchLoop pat (minClamp minLen) maxWaitPos 0 bufs

/-- synchronousMediaBase.Append (src/doc.go lines 109-119): no-op on empty
input, otherwise concatenation; the wake-token replacement is modelled by the
snapshot lists fed to Search. -/
def Append (buf p : List Nat) : List Nat := if p = [] then buf else buf ++ p

/-- synchronousMediaBase.Get (src/doc.go lines 121-136): first component is
the returned slice, second the buffer left behind. For count = -1 or
count = len(buf) the whole buffer is returned and the buffer cleared;
otherwise the first count bytes are removed (Receive only passes counts
within range, where take and drop agree with the Go slicing). -/
def Get (buf : List Nat) (count : Int) : List Nat × List Nat :=
  if count = -1 ∨ count = (buf.length : Int) then (buf, [])
  else (buf.take count.toNat, buf.drop count.toNat)

/-- The terminator bytes gxcommon.ToBytes yields for the EOP of a Receive
request: none models a nil EOP, which converts to no bytes. -/
def eopBytes : Option (List Nat) → List Nat
  | none => []
  | some t => t

/-- Result of GXSerial.Receive, with the synchronous buffer it leaves behind.
reply holds the raw bytes handed to the reply decoder. -/
structure ReceiveOutcome where
  matched : Bool
  isErr : Bool
  reply : List Nat
  buf : List Nat
deriving DecidableEq

/-- Result of GXSerial.Send: the sent-byte counter after the call and whether
an error is returned. -/
structure SendResult where
  bytesSent : Nat
  isErr : Bool
deriving DecidableEq

/-- Serial parity values of the gxcommon enumeration. -/
inductive Parity
  | none | odd | even | mark | space
deriving DecidableEq

namespace port

/-- port.setDataBits on Linux (src/linuxHandler.go lines 250-269): fails
exactly when the value is outside 5..8 (the termios get and set calls on the
open device are assumed to succeed). -/
def setDataBitsFails (value : Int) : Bool :=
  !(value == 5 || value == 6 || value == 7 || value == 8)

/-- port.setParity on Linux (src/linuxHandler.go lines 271-288): mark and
space parity are rejected, the other values are applied. -/
def setParityFails : Parity → Bool
  | Parity.mark => true
  | Parity.space => true
  | _ => false

/-- The data-bits switch of openPort on Linux (src/linuxHandler.go lines
104-116): fails exactly when the value is outside 5..8. -/
def openDataBitsFails (value : Int) : Bool :=
  !(value == 5 || value == 6 || value == 7 || value == 8)

/-- The parity switch of openPort on Linux (src/linuxHandler.go lines
132-169): with the constant hasCMSPAR = true every parity of the enumeration
is accepted, mark and space included. -/
def openParityFails : Parity → Bool
  | _ => false

end port

namespace GXSerial

/-- Embedding of GXSerial.Receive (src/unnamed/part_001 lines 452-481) for a
call during which no concurrent append happens, so the search sees the single
snapshot buf. eop is the EOP already converted to terminator bytes;
maxWaitPos is true exactly when WaitTime > 0 (lines 461-466). -/
def Receive (eop : Option (List Nat)) (count : Int) (allData : Bool)
    (maxWaitPos : Bool) (buf : List Nat) : ReceiveOutcome :=
  if eop = none ∧ count = 0 ∧ allData = false then
    ⟨false, true, [], buf⟩
  else
    let idx := Search (eopBytes eop) count maxWaitPos [buf]
    if idx = -1 then ⟨false, false, [], buf⟩
    else
      let idx2 : Int := if allData then -1 else idx
      let p := Get buf idx2
      ⟨true, false, p.1, p.2⟩

/-- Embedding of GXSerial.Send (src/unnamed/part_001 lines 435-449).
encoded is the result of gxcommon.ToBytes on the data (none = encode error),
toStringOk tells whether gxcommon.ToString succeeds, writeOk whether the port
write succeeds. bytesSent0 is the uint64 sent-byte counter before the call;
the counter wraps modulo 2 ^ 64. -/
def Send (bytesSent0 : Nat) (encoded : Option (List Nat))
    (toStringOk writeOk : Bool) : SendResult :=
  match encoded with
  | none => ⟨bytesSent0, true⟩
  | some tmp =>
      let c := (bytesSent0 + tmp.length) % 2 ^ 64
      if toStringOk then ⟨c, !writeOk⟩ else ⟨c, true⟩

/-- The dispatch gate shared by GXSerial.tracef and GXSerial.trace
(src/unnamed/part_001 lines 551-587): the event reaches the handler exactly
when a handler is registered and not (traceLevel < traceType), with the
TraceLevel and TraceTypes enumerations compared as integers. -/
def traceDispatch (traceLevel traceType : Int) (handlerSet : Bool) : Bool :=
  handlerSet && ! decide (traceLevel < traceType)

/-- Modelled from the spec: the ordered severity filter of the external
gxcommon TraceLevel and TraceTypes enumerations. A smaller enumeration value
is more severe, so category c is at or above level l in the severity
ordering exactly when c ≤ l as integers. -/
def specCategoryAtOrAbove (category level : Int) : Prop := category ≤ level

/-- GXSerial.SetDataBits (src/unnamed/part_001 lines 131-137): stores the
value unconditionally, then validates through the port only while open.
Returns the stored dataBits field and whether an error is returned. -/
def SetDataBits (isOpen : Bool) (value : Int) : Int × Bool :=
  (value, if isOpen then port.setDataBitsFails value else false)

/-- GXSerial.SetParity (src/unnamed/part_001 lines 159-165): stores the
value unconditionally, then validates through the port only while open. -/
def SetParity (isOpen : Bool) (value : Parity) : Parity × Bool :=
  (value, if isOpen then port.setParityFails value else false)

/-- Trace and media-state events emitted by GXSerial.Close, assuming a state
handler and a trace handler at Info level are registered. -/
inductive MediaEvent
  | traceClosing | stateClosing | traceClosed | stateClosed
deriving DecidableEq

/-- Lifecycle state of a GXSerial. stopClosed records whether the stop
channel has been closed; no statement in the package ever closes g.stop, so
every operation leaves it false. -/
structure SerialState where
  isOpen : Bool
  stopClosed : Bool
deriving DecidableEq

/-- NewGXSerial (src/unnamed/part_001 lines 95-104): closed port, fresh open
stop channel. -/
def newGXSerial : SerialState := ⟨false, false⟩

/-- The success path of GXSerial.Open (src/unnamed/part_001 lines 413-432):
the port becomes open; g.stop is not touched. -/
def OpenOk (s : SerialState) : SerialState := ⟨true, s.stopClosed⟩

/-- Embedding of GXSerial.Close (src/unnamed/part_001 lines 614-632). The
select on g.stop takes its receive branch only when the stop channel is
closed, which never happens, so every call runs the default branch: closing
trace and state events only while the port is open, then an unconditional
port close followed by the closed trace and state events. The err variable
is never assigned, so Close always returns a nil error. -/
def Close (s : SerialState) : SerialState × List MediaEvent :=
  if s.stopClosed then (s, [])
  else
    (⟨false, s.stopClosed⟩,
      (if s.isOpen then [MediaEvent.traceClosing, MediaEvent.stateClosing]
       else [])
        ++ [MediaEvent.traceClosed, MediaEvent.stateClosed])

end GXSerial

/-- The condition a single pass of Search tests with the cursor at zero: for
an empty pat the buffer must hold at least minLen bytes, for a non-empty pat
the buffer must additionally contain an occurrence of pat. -/
def condSatisfied (pat : List Nat) (minLen : Int) (buf : List Nat) : Prop :=
  if pat = [] then minClamp minLen ≤ buf.length
  else minClamp minLen ≤ buf.length ∧ listIndexOf pat buf ≠ none

instance (pat : List Nat) (minLen : Int) (buf : List Nat) :
    Decidable (condSatisfied pat minLen buf) := by
  unfold condSatisfied
  infer_instance

theorem listIndexOf_occurAt : ∀ (hay : List Nat) (i : Nat) {pat : List Nat},
    listIndexOf pat hay = some i → occurAt pat hay i
  | [], i, pat, h => by
      unfold listIndexOf at h
      split at h
      · next hp =>
          cases h
          simp [occurAt, hp]
      · cases h
  | a :: rest, i, pat, h => by
      unfold listIndexOf at h
      split at h
      · next hc =>
          cases h
          exact hc
      · next hc =>
          cases hidx : listIndexOf pat rest with
          | none => rw [hidx] at h; cases h
          | some i' =>
              rw [hidx] at h
              cases h
              have hrec := listIndexOf_occurAt rest i' hidx
              simpa [occurAt, List.drop_succ_cons] using hrec

theorem occurAt_listIndexOf : ∀ (hay : List Nat) (k : Nat) {pat : List Nat},
    occurAt pat hay k → ∃ i, listIndexOf pat hay = some i ∧ i ≤ k
  | [], k, pat, h => by
      have hp : pat = [] := by
        unfold occurAt at h
        simpa using h.symm
      exact ⟨0, by simp [listIndexOf, hp], Nat.zero_le k⟩
  | a :: rest, k, pat, h => by
      by_cases hc : (a :: rest).take pat.length = pat
      · exact ⟨0, by simp [listIndexOf, hc], Nat.zero_le k⟩
      · cases k with
        | zero => exact absurd h hc
        | succ k' =>
            have h' : occurAt pat rest k' := by
              unfold occurAt at h ⊢
              simpa [List.drop_succ_cons] using h
            obtain ⟨i, hi, hik⟩ := occurAt_listIndexOf rest k' h'
            refine ⟨i + 1, ?_, Nat.succ_le_succ hik⟩
            simp [listIndexOf, hc, hi]

theorem occurAt_drop (pat hay : List Nat) (c i : Nat) :
    occurAt pat (hay.drop c) i ↔ occurAt pat hay (c + i) := by
  unfold occurAt
  rw [List.drop_drop]

/-- A non-empty occurrence fits inside the list. -/
theorem occurAt_bound {pat hay : List Nat} {i : Nat} (hp : pat ≠ [])
    (h : occurAt pat hay i) : i + pat.length ≤ hay.length := by
  unfold occurAt at h
  have hlen := congrArg List.length h
  simp [List.length_take, List.length_drop] at hlen
  have h2 : 0 < pat.length := List.length_pos.mpr hp
  omega

/-- An occurrence inside the left part of an append is an occurrence of the
whole append. -/
theorem occurAt_append_left {pat hay : List Nat} (ext : List Nat) {i : Nat}
    (hp : pat ≠ []) (h : occurAt pat hay i) : occurAt pat (hay ++ ext) i := by
  have hb := occurAt_bound hp h
  have h2 : 0 < pat.length := List.length_pos.mpr hp
  unfold occurAt at h ⊢
  rw [List.drop_append_of_le_length (by omega)]
  rw [List.take_append_of_le_length (by simp [List.length_drop]; omega)]
  exact h

/-- Claim C2 (evaluation at the failing input): Receive for a request with
byte count 2, no terminator and no all-data, on a buffer holding the three
bytes 1, 2, 3 with a positive wait, reports matched = true yet hands the
decoder no bytes at all and leaves the buffer untouched, because the
empty-terminator Search returns offset 0 and Get(0) removes nothing; the
claim expects the first 2 bytes to be decoded and removed. -/
theorem receive_count_only_failing :
    GXSerial.Receive none 2 false true [1, 2, 3]
      = ⟨true, false, [], [1, 2, 3]⟩
    ∧ (GXSerial.Receive none 2 false true [1, 2, 3]).reply ≠ [1, 2]
    ∧ (GXSerial.Receive none 2 false true [1, 2, 3]).buf ≠ [3] := by
  decide

/-- Claim C3 (evaluation at the failing input): open a fresh GXSerial and
call Close twice. Because nothing ever closes the stop channel, the
already-closed branch of Close never fires and the second call again emits
the closed trace and state events, so it is not the event-free no-op the
claim states (the nil return value of the second call does hold). -/
theorem close_second_call_emits_events :
    (GXSerial.Close (GXSerial.Close (GXSerial.OpenOk GXSerial.newGXSerial)).1).2
      = [GXSerial.MediaEvent.traceClosed, GXSerial.MediaEvent.stateClosed]
    ∧ (GXSerial.Close (GXSerial.Close (GXSerial.OpenOk GXSerial.newGXSerial)).1).2
        ≠ ([] : List GXSerial.MediaEvent) := by
  decide

/-- Claim C4 (counterexample): SetDataBits with the invalid value 9 on a
closed port stores the value and returns no error, so the setters do not
validate "whether the port is open or closed"; moreover open-time
configuration accepts mark parity while the live SetParity rejects it, so
the live setters do not enforce the same constraints as open-time
configuration. -/
theorem setters_closed_no_validation_counterexample :
    GXSerial.SetDataBits false 9 = (9, false)
    ∧ port.openParityFails Parity.mark = false
    ∧ (GXSerial.SetParity true Parity.mark).2 = true := by
  decide

/-- Claim C4 (amended): while the port is open, SetDataBits rejects every
data-bits value outside 5..8 with an error, the same constraint the
data-bits switch of openPort enforces; while the port is closed, SetDataBits
and SetParity store the value and return no error without any validation;
and while open SetParity additionally rejects mark and space parity even
though open-time configuration accepts them. -/
theorem setters_validate_only_while_open (v : Int) (hv : ¬(5 ≤ v ∧ v ≤ 8)) :
    (GXSerial.SetDataBits true v).2 = true
    ∧ port.openDataBitsFails v = true
    ∧ (GXSerial.SetDataBits false v).2 = false
    ∧ (∀ p : Parity, (GXSerial.SetParity false p).2 = false)
    ∧ (GXSerial.SetParity true Parity.mark).2 = true
    ∧ (GXSerial.SetParity true Parity.space).2 = true
    ∧ port.openParityFails Parity.mark = false
    ∧ port.openParityFails Parity.space = false := by
  have hbeq : (v == 5 || v == 6 || v == 7 || v == 8) = false := by
    simp only [Bool.or_eq_false_iff, beq_eq_false_iff_ne, ne_eq]
    refine ⟨⟨⟨?_, ?_⟩, ?_⟩, ?_⟩ <;> intro h <;> exact hv (by omega)
  refine ⟨?_, ?_, rfl, ?_, rfl, rfl, rfl, rfl⟩
  · simp [GXSerial.SetDataBits, port.setDataBitsFails, hbeq]
  · simp [port.openDataBitsFails, hbeq]
  · intro p; rfl

/-- Witness for setters_validate_only_while_open at the invalid value 9. -/
theorem setters_validate_only_while_open_witness :
    (GXSerial.SetDataBits true 9).2 = true
    ∧ (GXSerial.SetDataBits false 9).2 = false :=
  ⟨(setters_validate_only_while_open 9 (by decide)).1,
   (setters_validate_only_while_open 9 (by decide)).2.2.1⟩

/-- Claim C5: a trace event passes the gate of GXSerial.tracef and
GXSerial.trace, and so is dispatched to the registered handler, exactly when
a handler is registered and the category of the event is at or above the
configured trace level in the severity ordering of the enumerations. -/
theorem trace_dispatch_iff_severity (level ty : Int) (handlerSet : Bool) :
    GXSerial.traceDispatch level ty handlerSet = true
      ↔ handlerSet = true ∧ GXSerial.specCategoryAtOrAbove ty level := by
  simp [GXSerial.traceDispatch, GXSerial.specCategoryAtOrAbove, Int.not_lt]

/-- Claim C8: a Receive request that specifies no terminator, a zero byte
count and no all-data returns matched = false together with a validation
error and leaves the synchronous buffer unchanged, for every wait setting
and buffer content. -/
theorem receive_without_condition_validation_error (mw : Bool) (buf : List Nat) :
    GXSerial.Receive none 0 false mw buf = ⟨false, true, [], buf⟩ := by
  rfl

/-- Claim C10: once gxcommon.ToBytes succeeds, Send adds the encoded length
to the sent-byte counter (a uint64, hence modulo 2 ^ 64) before the trace
string conversion and before the port write, so the updated counter is
returned even when the string conversion or the write fails and Send returns
an error; the update is never rolled back. -/
theorem send_counter_updated_before_write (c0 : Nat) (tmp : List Nat)
    (toStringOk writeOk : Bool) :
    (GXSerial.Send c0 (some tmp) toStringOk writeOk).bytesSent
        = (c0 + tmp.length) % 2 ^ 64
    ∧ (GXSerial.Send c0 (some tmp) false writeOk).isErr = true
    ∧ (GXSerial.Send c0 (some tmp) toStringOk false).isErr = true := by
  unfold GXSerial.Send
  cases toStringOk <;> cases writeOk <;> simp

theorem searchEmptyLoop_timeout (m : Nat) : ∀ (bufs : List (List Nat)),
    (∀ b ∈ bufs, b.length < m) → searchEmptyLoop m true bufs = -1
  | [], _ => rfl
  | b :: rest, h => by
      have hb : b.length < m := h b (by simp)
      have hr := searchEmptyLoop_timeout m rest (fun x hx => h x (by simp [hx]))
      simp [searchEmptyLoop, Nat.not_le.mpr hb, hr]

/-- Claim C6: with an empty pat and minLength N at least 0, Search with a
positive maxWait returns offset 0 at the first pass whose buffer holds at
least N bytes; while the buffer is shorter it moves on to the next wake of
the wait token; and when every observed buffer stays shorter than N until
the deadline it returns the no-match result -1. -/
theorem search_empty_pat_behaviour (N : Int) (hN : 0 ≤ N) (buf : List Nat)
    (bufs : List (List Nat)) :
    (N.toNat ≤ buf.length → Search [] N true (buf :: bufs) = 0)
    ∧ (buf.length < N.toNat →
        Search [] N true (buf :: bufs) = Search [] N true bufs)
    ∧ ((∀ b ∈ buf :: bufs, b.length < N.toNat) →
        Search [] N true (buf :: bufs) = -1) := by
  have hm : minClamp N = N.toNat := by
    simp [minClamp, Int.not_lt.mpr hN]
  refine ⟨?_, ?_, ?_⟩
  · intro h
    simp [Search, searchEmptyLoop, hm, h]
  · intro h
    simp [Search, searchEmptyLoop, hm, Nat.not_le.mpr h]
  · intro h
    have := searchEmptyLoop_timeout N.toNat (buf :: bufs) h
    simpa [Search, hm] using this

/-- Witness for search_empty_pat_behaviour with N = 1: a one-byte buffer
succeeds at once with offset 0, and a run whose buffers stay empty until the
deadline returns -1. -/
theorem search_empty_pat_behaviour_witness :
    Search [] 1 true [[5]] = 0 ∧ Search [] 1 true [[], []] = -1 :=
  ⟨(search_empty_pat_behaviour 1 (by decide) [5] []).1 (by decide),
   (search_empty_pat_behaviour 1 (by decide) [] [[]]).2.2 (by decide)⟩

/-- Claim C7: a Search call with maxWait at most 0 never waits on the wake
token or a timer: its result ignores every buffer state after the first
pass, and when the match or length condition is not already satisfied at
call time it returns the no-match result -1 at once. -/
theorem search_nonpositive_wait_immediate (pat : List Nat) (minLen : Int)
    (buf : List Nat) (rest : List (List Nat)) :
    Search pat minLen false (buf :: rest) = Search pat minLen false [buf]
    ∧ (¬ condSatisfied pat minLen buf →
        Search pat minLen false (buf :: rest) = -1) := by
  by_cases hp : pat = []
  · subst hp
    constructor
    · by_cases h : minClamp minLen ≤ buf.length
      · simp [Search, searchEmptyLoop, h]
      · simp [Search, searchEmptyLoop, h]
    · intro hc
      have h : ¬ minClamp minLen ≤ buf.length := by
        simpa [condSatisfied] using hc
      simp [Search, searchEmptyLoop, h]
  · constructor
    · by_cases h : buf.length < minClamp minLen
      · simp [Search, hp, searchLoop, h]
      · cases hidx : listIndexOf pat buf with
        | some i => simp [Search, hp, searchLoop, h, hidx]
        | none => simp [Search, hp, searchLoop, h, hidx]
    · intro hc
      rw [condSatisfied, if_neg hp] at hc
      push_neg at hc
      by_cases h : buf.length < minClamp minLen
      · simp [Search, hp, searchLoop, h]
      · have hm : minClamp minLen ≤ buf.length := by omega
        have hidx : listIndexOf pat buf = none := hc hm
        simp [Search, hp, searchLoop, h, hidx]

/-- Witness for search_nonpositive_wait_immediate: with no wait, data that
only arrives after the call is never seen and the unsatisfied call returns
-1 at once. -/
theorem search_nonpositive_wait_immediate_witness :
    Search [1] 0 false [[], [1]] = Search [1] 0 false [[]]
    ∧ Search [1] 0 false [[], [1]] = -1 :=
  ⟨(search_nonpositive_wait_immediate [1] 0 [] [[1]]).1,
   (search_nonpositive_wait_immediate [1] 0 [] [[1]]).2 (by decide)⟩

/-- Claim C9: a valid Receive request (at least one of terminator, positive
count, all-data specified) whose Search times out with no match returns
matched = false and a nil error, leaving the buffer unchanged: a timeout is
never reported as an error. -/
theorem receive_timeout_no_error (eop : Option (List Nat)) (count : Int)
    (allData : Bool) (mw : Bool) (buf : List Nat)
    (hreq : ¬(eop = none ∧ count = 0 ∧ allData = false))
    (hto : Search (eopBytes eop) count mw [buf] = -1) :
    GXSerial.Receive eop count allData mw buf = ⟨false, false, [], buf⟩ := by
  unfold GXSerial.Receive
  rw [if_neg hreq]
  simp [hto]

/-- Witness for receive_timeout_no_error: a terminator request on an empty
buffer with no wait times out with matched = false and no error. -/
theorem receive_timeout_no_error_witness :
    GXSerial.Receive (some [10]) 0 false false [] = ⟨false, false, [], []⟩ :=
  receive_timeout_no_error (some [10]) 0 false false [] (by decide) (by decide)

/-- One pass of searchLoop on a buffer long enough, with the cursor in
range, that finds the pat: it returns the offset just after the match. -/
theorem searchLoop_cons_found {pat buf : List Nat} {m ls i : Nat} {mw : Bool}
    {rest : List (List Nat)} (hm : ¬ buf.length < m) (hls : ls ≤ buf.length)
    (hi : listIndexOf pat (buf.drop ls) = some i) :
    searchLoop pat m mw ls (buf :: rest) = ((ls + i + pat.length : Nat) : Int) := by
  have hmin : min ls buf.length = ls := min_eq_left hls
  unfold searchLoop
  rw [if_neg hm, hmin, hi]

/-- One pass of searchLoop on a buffer long enough, with the cursor in
range, that finds no match: with a positive maxWait it moves to the next
pass with the cursor advanced to nextStart. -/
theorem searchLoop_cons_not_found {pat buf : List Nat} {m ls : Nat}
    {rest : List (List Nat)} (hm : ¬ buf.length < m) (hls : ls ≤ buf.length)
    (hnone : listIndexOf pat (buf.drop ls) = none) :
    searchLoop pat m true ls (buf :: rest)
      = searchLoop pat m true (nextStart pat buf) rest := by
  have hmin : min ls buf.length = ls := min_eq_left hls
  conv_lhs => unfold searchLoop
  rw [if_neg hm, hmin, hnone]
  rfl

/-- Claim C1: a non-empty pat P split across two appends A then B (an
occurrence of P starts inside A and ends inside B) is found by
Search(P, 0, wait > 0) over the two passes: the call returns the offset
immediately after the end of a full occurrence of P, never a false negative
due to the split. Moreover the cursor kept after a failed pass grows
monotonically with the buffer, and a pass that found no match leaves the
next pass scanning from nextStart, so exactly the trailing
len(P) - 1 bytes of the old buffer remain inside the region scanned next
and every byte before the cursor is never rescanned. -/
theorem search_split_across_appends
    (P A B : List Nat) (hP : P ≠ []) (hA : A ≠ []) (hB : B ≠ [])
    (s : Nat) (hsA : s < A.length) (hsplit : A.length < s + P.length)
    (hocc : occurAt P (A ++ B) s) :
    (∃ j, occurAt P (A ++ B) j ∧
        Search P 0 true [A, Append A B] = ((j + P.length : Nat) : Int))
    ∧ (∀ b1 b2 : List Nat, b1.length ≤ b2.length →
        nextStart P b1 ≤ nextStart P b2)
    ∧ (∀ buf ext : List Nat, P.length - 1 ≤ buf.length →
        (buf ++ ext).drop (nextStart P buf)
          = buf.drop (nextStart P buf) ++ ext
        ∧ (buf.drop (nextStart P buf)).length = P.length - 1) := by
  have hPlen : 0 < P.length := List.length_pos.mpr hP
  refine ⟨?_, ?_, ?_⟩
  · have hApp : Append A B = A ++ B := by simp [Append, hB]
    rw [hApp]
    have hS : Search P 0 true [A, A ++ B]
        = searchLoop P 0 true 0 [A, A ++ B] := by
      simp [Search, hP, minClamp]
    rw [hS]
    cases hidx : listIndexOf P A with
    | some i =>
        refine ⟨i, occurAt_append_left B hP (listIndexOf_occurAt A i hidx), ?_⟩
        rw [searchLoop_cons_found (by omega) (Nat.zero_le _)
          (by simpa using hidx)]
        simp
    | none =>
        set c := nextStart P A with hc
        have hcA : c ≤ A.length := Nat.sub_le _ _
        have hcs : c ≤ s := by
          rw [hc]; unfold nextStart; omega
        have hocc2 : occurAt P ((A ++ B).drop c) (s - c) := by
          rw [occurAt_drop]
          have heq : c + (s - c) = s := by omega
          rw [heq]; exact hocc
        obtain ⟨i, hi, hik⟩ := occurAt_listIndexOf _ _ hocc2
        refine ⟨c + i, ?_, ?_⟩
        · have hocc3 := listIndexOf_occurAt _ i hi
          rwa [occurAt_drop] at hocc3
        · rw [searchLoop_cons_not_found (by omega) (Nat.zero_le _)
            (by simpa using hidx)]
          rw [← hc]
          have hlen : c ≤ (A ++ B).length := by
            rw [List.length_append]; omega
          rw [searchLoop_cons_found (by omega) hlen hi]
  · intro b1 b2 h
    unfold nextStart
    omega
  · intro buf ext h
    have hns : nextStart P buf ≤ buf.length := Nat.sub_le _ _
    refine ⟨List.drop_append_of_le_length hns, ?_⟩
    simp only [List.length_drop, nextStart]
    omega

/-- Witness for search_split_across_appends: pat 1 2 3 split as append
9 1 2 then append 3 7; the two-pass Search returns 4, the offset just after
the occurrence of the pat at index 1, and the cursor formula is monotone
from the first buffer to the second. -/
theorem search_split_across_appends_witness :
    Search [1, 2, 3] 0 true [[9, 1, 2], Append [9, 1, 2] [3, 7]] = 4
    ∧ nextStart [1, 2, 3] [9, 1, 2] ≤ nextStart [1, 2, 3] [9, 1, 2, 3, 7] := by
  have h := search_split_across_appends [1, 2, 3] [9, 1, 2] [3, 7]
    (by decide) (by decide) (by decide) 1 (by decide) (by decide) (by decide)
  refine ⟨?_, h.2.1 [9, 1, 2] [9, 1, 2, 3, 7] (by decide)⟩
  obtain ⟨j, hj, hS⟩ := h.1
  have hj4 : ((j + [1, 2, 3].length : Nat) : Int) = 4 := by
    rw [← hS]; decide
  have hj1 : j = 1 := by
    simp only [List.length_cons, List.length_nil] at hj4
    omega
  rw [hj1] at hS
  simpa using hS

end Gxserial
